import Mathlib

/-!
Verification development for the outbound network access-control engine of the
`spin` repository (crates `outbound-networking-config` and
`factor-outbound-networking`).

The Rust code is shallowly embedded: strings are modelled as `List Char`
(wrapped in `String` at the API boundary), `u16`/`u32`/`u128` machine values as
`Nat` with explicit bounds where relevant, and fallible functions return
`Except String` or `Option`.  External library behaviour that the code relies
on (`url::Host::parse`, `url::Url::parse`, `ip_network`, `std::net`) is
modelled from the libraries' documented semantics, restricted to the ASCII
fragment these claims exercise; each such model carries a doc comment naming
its boundary.  Error messages are abbreviated static texts (the Rust originals
interpolate the offending input).
-/

/-! ### Character and list-of-character primitives mirroring Rust `str` methods -/

/-- Left brace character, written via its code point. -/
def chrLBrace : Char := Char.ofNat 123

/-- Right brace character, written via its code point. -/
def chrRBrace : Char := Char.ofNat 125

/-- Model of Rust `char::is_whitespace`, restricted to ASCII whitespace
(the claims never exercise Unicode whitespace). -/
def wsChar (c : Char) : Bool := c == ' ' || c == '\t' || c == '\n' || c == '\r'

/-- Model of Rust `str::trim`. -/
def trimChars (l : List Char) : List Char :=
  ((l.dropWhile wsChar).reverse.dropWhile wsChar).reverse

/-- Model of Rust `str::split_once(pat)` for a string pattern: split at the
first occurrence of `sep`. -/
def splitOnceChars : List Char → List Char → Option (List Char × List Char)
  | [], sep => if sep.isEmpty then some ([], []) else none
  | x :: rest, sep =>
    if sep.isPrefixOf (x :: rest) then some ([], (x :: rest).drop sep.length)
    else
      match splitOnceChars rest sep with
      | some (a, b) => some (x :: a, b)
      | none => none

/-- Model of Rust `str::split_once(char)`: split at the first occurrence. -/
def splitOnceChar : List Char → Char → Option (List Char × List Char)
  | [], _ => none
  | x :: rest, c =>
    if x == c then some ([], rest)
    else
      match splitOnceChar rest c with
      | some (a, b) => some (x :: a, b)
      | none => none

/-- Model of Rust `str::rsplit_once(char)`: split at the last occurrence,
returning (part before, part after). -/
def rsplitOnceChar : List Char → Char → Option (List Char × List Char)
  | [], _ => none
  | x :: rest, c =>
    match rsplitOnceChar rest c with
    | some (a, b) => some (x :: a, b)
    | none => if x == c then some ([], rest) else none

/-- Model of Rust `str::split(char)` collected to a vector (always at least
one piece). -/
def splitAllChar : List Char → Char → List (List Char)
  | [], _ => [[]]
  | x :: rest, c =>
    if x == c then [] :: splitAllChar rest c
    else
      match splitAllChar rest c with
      | [] => [[x]]
      | h :: t => (x :: h) :: t

/-- Model of Rust `str::trim_end_matches(char)`. -/
def trimEndMatchesChar (l : List Char) (c : Char) : List Char :=
  (l.reverse.dropWhile (· == c)).reverse

/-- Model of Rust `str::strip_prefix` (for a string pattern). -/
def stripPfx (pre l : List Char) : Option (List Char) :=
  if pre.isPrefixOf l then some (l.drop pre.length) else none

/-- Substring test, via `splitOnceChars`. -/
def containsSub (l sub : List Char) : Bool := (splitOnceChars l sub).isSome

/-- Model of Rust `str::ends_with` (for a string pattern). -/
def endsWithChars (l suf : List Char) : Bool := suf.reverse.isPrefixOf l.reverse

/-- Value of a list of decimal digit characters. -/
def digitsVal (l : List Char) : Nat := l.foldl (fun a c => a * 10 + (c.toNat - 48)) 0

/-- Parse a non-empty all-decimal-digit string to a `Nat`; `none` otherwise. -/
def parseNatDigits (l : List Char) : Option Nat :=
  if l.isEmpty then none
  else if l.all (·.isDigit) then some (digitsVal l) else none

/-- Model of Rust `str::parse::<u16>`, restricted to plain decimal digit
strings (the leading `+` Rust also accepts is outside the modelled fragment).
Out-of-range values are rejected, as in Rust. -/
def parseU16 (l : List Char) : Option Nat :=
  match parseNatDigits l with
  | some n => if n < 65536 then some n else none
  | none => none

/-- ASCII lower-casing of one character. -/
def lowerAsciiChar (c : Char) : Char :=
  if 'A' ≤ c && c ≤ 'Z' then Char.ofNat (c.toNat + 32) else c

/-! ### IP address textual forms

Models of `std::net::Ipv4Addr`/`Ipv6Addr` parsing (used by
`ip_network::IpNetwork::from_str_truncate`) and of the host parsing in the
`url` crate.  The IPv4 parser is the strict canonical dotted-decimal form
(four decimal octets, no leading zeros), matching `std`; the WHATWG
octal/hex/short IPv4 forms that `url::Host::parse` additionally accepts are
outside the modelled fragment (such inputs are mapped to `none`).  The IPv6
parser covers the RFC 4291 section 2.2 forms 1 and 2; the embedded-IPv4
dotted form is outside the modelled fragment. -/

/-- Parse one decimal octet as `std::net::Ipv4Addr` does: value at most 255,
no leading zeros. -/
def parseOctet (l : List Char) : Option Nat :=
  match parseNatDigits l with
  | some n =>
    if n ≤ 255 && (l.length == 1 || l.head? != some '0') then some n else none
  | none => none

/-- Parse a canonical dotted-decimal IPv4 address to its 32-bit value. -/
def parseIpv4Chars (l : List Char) : Option Nat :=
  match (splitAllChar l '.').mapM parseOctet with
  | some [a, b, c, d] => some (((a * 256 + b) * 256 + c) * 256 + d)
  | _ => none

/-- Hexadecimal digit value. -/
def hexDigitVal (c : Char) : Option Nat :=
  if c.isDigit then some (c.toNat - 48)
  else if 'a' ≤ c && c ≤ 'f' then some (c.toNat - 87)
  else if 'A' ≤ c && c ≤ 'F' then some (c.toNat - 55)
  else none

/-- Parse one 16-bit IPv6 group: one to four hex digits. -/
def parseHexGroup (l : List Char) : Option Nat :=
  if l.length == 0 || decide (4 < l.length) then none
  else (l.mapM hexDigitVal).map (·.foldl (fun a d => a * 16 + d) 0)

/-- Combine 16-bit groups (most significant first) into one value. -/
def assembleV6 (groups : List Nat) : Nat :=
  groups.foldl (fun a g => a * 65536 + g) 0

/-- Split a (possibly empty) run of colon-separated IPv6 groups. -/
def parseV6Groups (l : List Char) : Option (List Nat) :=
  if l.isEmpty then some [] else (splitAllChar l ':').mapM parseHexGroup

/-- Parse an IPv6 address text to its 128-bit value. -/
def parseIpv6Chars (l : List Char) : Option Nat :=
  match splitOnceChars l [':', ':'] with
  | some (left, right) =>
    match parseV6Groups left, parseV6Groups right with
    | some gl, some gr =>
      if gl.length + gr.length ≤ 7 then
        some (assembleV6 (gl ++ List.replicate (8 - gl.length - gr.length) 0 ++ gr))
      else none
    | _, _ => none
  | none =>
    match parseV6Groups l with
    | some gs => if gs.length == 8 then some (assembleV6 gs) else none
    | none => none

/-- Canonical decimal printing of a 32-bit IPv4 value. -/
def ipv4ToChars (n : Nat) : List Char :=
  Nat.toDigits 10 (n >>> 24 % 256) ++ '.' :: Nat.toDigits 10 (n >>> 16 % 256)
    ++ '.' :: Nat.toDigits 10 (n >>> 8 % 256) ++ '.' :: Nat.toDigits 10 (n % 256)

/-- The eight 16-bit groups of a 128-bit IPv6 value, most significant first. -/
def ipv6Groups (n : Nat) : List Nat :=
  [n >>> 112, n >>> 96, n >>> 80, n >>> 64, n >>> 48, n >>> 32, n >>> 16, n].map (· % 65536)

/-- Leftmost longest run (of length at least two) of zero groups, as
(start index, length), per the WHATWG IPv6 serializer. -/
def bestZeroRun (gs : List Nat) : Option (Nat × Nat) :=
  ((List.range gs.length).map
      (fun i => (i, ((gs.drop i).takeWhile (· == 0)).length))).foldl
    (fun acc p =>
      match acc with
      | none => if 2 ≤ p.2 then some p else none
      | some q => if q.2 < p.2 then some p else some q)
    none

/-- Canonical (RFC 5952 / WHATWG) printing of a 128-bit IPv6 value, without
brackets. -/
def ipv6ToChars (n : Nat) : List Char :=
  let gs := ipv6Groups n
  match bestZeroRun gs with
  | none => List.intercalate [':'] (gs.map (Nat.toDigits 16))
  | some (s, len) =>
    List.intercalate [':'] ((gs.take s).map (Nat.toDigits 16)) ++ [':', ':']
      ++ List.intercalate [':'] ((gs.drop (s + len)).map (Nat.toDigits 16))

/-! ### `url::Host` model -/

/-- Model of `url::Host`: a parsed host is a domain name, an IPv4 address or
an IPv6 address. -/
inductive UrlHost where
  | domain (s : String)
  | ipv4 (a : Nat)
  | ipv6 (a : Nat)
deriving DecidableEq, Repr

/-- Characters admitted in the modelled domain fragment (after ASCII
lower-casing). -/
def domainChar (c : Char) : Bool :=
  ('a' ≤ c && c ≤ 'z') || c.isDigit || c == '-' || c == '_' || c == '.'

/-- Model of `url::Host::parse`.  Brackets delimit an IPv6 literal; otherwise
the input is lower-cased (the ASCII part of IDNA processing) and checked
against the modelled domain character set; a final all-digit label triggers
IPv4 interpretation, as in the WHATWG host parser.  Outside the modelled
fragment (percent-encoding, non-ASCII labels, empty labels, non-canonical
IPv4 forms) the model returns `none`. -/
def hostParseChars (l : List Char) : Option UrlHost :=
  if l.head? == some '[' then
    if l.getLast? == some ']' && decide (2 ≤ l.length) then
      (parseIpv6Chars (l.drop 1).dropLast).map .ipv6
    else none
  else
    let low := l.map lowerAsciiChar
    if low.isEmpty then none
    else if !low.all domainChar then none
    else
      let labels := splitAllChar low '.'
      if labels.any (·.isEmpty) then none
      else if (labels.getLast?.getD []).all (·.isDigit) then
        (parseIpv4Chars low).map .ipv4
      else some (.domain (String.mk low))

/-- Canonical serialization of a parsed host, as `url::Url::host_str` returns
it (IPv6 addresses keep their brackets). -/
def hostSerialize : UrlHost → String
  | .domain s => s
  | .ipv4 a => String.mk (ipv4ToChars a)
  | .ipv6 a => String.mk ('[' :: ipv6ToChars a ++ [']'])

/-! ### `ip_network` model -/

/-- Model of `ip_network::IpNetwork`: an address (as `Nat`) plus a prefix
length. -/
inductive IpNetwork where
  | v4 (addr : Nat) (netmask : Nat)
  | v6 (addr : Nat) (netmask : Nat)
deriving DecidableEq, Repr

/-- Model of `std::net::IpAddr`. -/
inductive IpAddr where
  | v4 (a : Nat)
  | v6 (a : Nat)
deriving DecidableEq, Repr

/-- Containment of a 32-bit address-with-prefix in a range. -/
def inNet32 (a m ra rm : Nat) : Bool :=
  rm ≤ m && (a >>> (32 - rm) == ra >>> (32 - rm))

/-- Containment of a 128-bit address-with-prefix in a range. -/
def inNet128 (a m ra rm : Nat) : Bool :=
  rm ≤ m && (a >>> (128 - rm) == ra >>> (128 - rm))

/-- Model of `ip_network::IpNetwork::contains` (an address of the other IP
version is never contained). -/
def IpNetwork.contains : IpNetwork → IpAddr → Bool
  | .v4 na nm, .v4 a => na >>> (32 - nm) == a >>> (32 - nm)
  | .v6 na nm, .v6 a => na >>> (128 - nm) == a >>> (128 - nm)
  | _, _ => false

/-- Zero the host bits of a 32-bit address under the given prefix length. -/
def truncate32 (a m : Nat) : Nat := (a >>> (32 - m)) <<< (32 - m)

/-- Zero the host bits of a 128-bit address under the given prefix length. -/
def truncate128 (a m : Nat) : Nat := (a >>> (128 - m)) <<< (128 - m)

/-- Model of `ip_network::IpNetwork::from_str_truncate`: split at the first
slash, parse the address (IPv4 via `std` strict parsing, else IPv6) and the
prefix length, and truncate host bits instead of rejecting them. -/
def ipNetworkFromStrTruncate (l : List Char) : Option IpNetwork :=
  match splitOnceChar l '/' with
  | none => none
  | some (ipPart, maskPart) =>
    match parseIpv4Chars ipPart with
    | some a =>
      match parseNatDigits maskPart with
      | some m => if m ≤ 32 then some (.v4 (truncate32 a m) m) else none
      | none => none
    | none =>
      match parseIpv6Chars ipPart with
      | some a =>
        match parseNatDigits maskPart with
        | some m => if m ≤ 128 then some (.v6 (truncate128 a m) m) else none
        | none => none
      | none => none

/-- Model of `ip_network::Ipv4Network::is_global`, per the IANA IPv4
Special-Purpose Address Registry as the crate documents it: global unless the
network lies in a private, loopback, link-local, broadcast, documentation,
shared, reserved-for-protocols (192.0.0.0/24, except the two global hosts
192.0.0.9/32 and 192.0.0.10/32), reserved (240.0.0.0/4), benchmarking
(198.18.0.0/15) or 0.0.0.0/8 range. -/
def ipv4NetIsGlobal (a m : Nat) : Bool :=
  if (a == 0xC0000009 || a == 0xC000000A) && m == 32 then true
  else
    !(inNet32 a m 0x0A000000 8 || inNet32 a m 0xAC100000 12 || inNet32 a m 0xC0A80000 16
      || inNet32 a m 0x7F000000 8
      || inNet32 a m 0xA9FE0000 16
      || (a == 0xFFFFFFFF && m == 32)
      || inNet32 a m 0xC0000200 24 || inNet32 a m 0xC6336400 24 || inNet32 a m 0xCB007100 24
      || inNet32 a m 0x64400000 10
      || inNet32 a m 0xC0000000 24
      || inNet32 a m 0xF0000000 4
      || inNet32 a m 0xC6120000 15
      || inNet32 a m 0x00000000 8)

/-- Model of `ip_network::Ipv6Network::is_global`: a global-scope multicast
network is global; a non-multicast network is global iff it is unicast global
(not loopback, unspecified, link-local, unique-local or documentation);
other multicast scopes are not global. -/
def ipv6NetIsGlobal (a m : Nat) : Bool :=
  let seg0 := (a >>> 112) % 65536
  if seg0 / 256 == 0xFF then seg0 % 16 == 0xE
  else
    !((a == 1 && m == 128)
      || (a == 0 && m == 128)
      || inNet128 a m (0xFE80 <<< 112) 10
      || inNet128 a m (0xFC00 <<< 112) 7
      || inNet128 a m ((0x20010DB8 : Nat) <<< 96) 32)

/-- `is_global` on a network. -/
def IpNetwork.isGlobal : IpNetwork → Bool
  | .v4 a m => ipv4NetIsGlobal a m
  | .v6 a m => ipv6NetIsGlobal a m

/-- `IpNetwork::from(ip_addr).is_global()`: the host network of an address. -/
def IpAddr.isGlobalAddr : IpAddr → Bool
  | .v4 a => ipv4NetIsGlobal a 32
  | .v6 a => ipv6NetIsGlobal a 128

/-- Model of `std::net::Ipv6Addr::to_ipv4`: defined exactly when segments 0-4
are zero and segment 5 is 0 or 0xFFFF (the IPv4-compatible and IPv4-mapped
forms), returning the low 32 bits. -/
def ipv6ToIpv4 (a : Nat) : Option Nat :=
  if a >>> 32 == 0 || a >>> 32 == 0xFFFF then some (a % 4294967296) else none

/-- ASCII alphabetic test (the unfolding of `Char.isAlpha`), modelling Rust
`char::is_alphabetic` on the ASCII fragment. -/
def asciiAlpha (c : Char) : Bool :=
  ('a' ≤ c && c ≤ 'z') || ('A' ≤ c && c ≤ 'Z')

/-! ### Allow-list pattern configuration
(`outbound-networking-config/src/allowed_hosts.rs`) -/

/-- Model of `SchemeConfig`: the scheme part of one allow-list item. -/
inductive SchemeConfig where
  | any
  | list (l : List String)
deriving DecidableEq, Repr

/-- Model of `SchemeConfig::parse`.  `is_alphabetic` is modelled as ASCII
alphabetic (non-ASCII schemes are outside the modelled fragment). -/
def SchemeConfig.parse (scheme : List Char) : Except String SchemeConfig :=
  if scheme == ['*'] then .ok .any
  else if scheme.head? == some chrLBrace then .error "scheme lists are not supported"
  else if scheme.any (fun c => !asciiAlpha c) then .error "only alphabetic characters are allowed"
  else .ok (.list [String.mk scheme])

/-- Model of `SchemeConfig::allows`. -/
def SchemeConfig.allows (sc : SchemeConfig) (scheme : String) : Bool :=
  match sc with
  | .any => true
  | .list l => l.any (· == scheme)

/-- Model of `HostConfig`: the host part of one allow-list item. -/
inductive HostConfig where
  | any
  | anySubdomain (s : String)
  | toSelf
  | literal (h : UrlHost)
  | cidr (n : IpNetwork)
deriving DecidableEq, Repr

/-- Model of `HostConfig::parse`. -/
def HostConfig.parse (host0 : List Char) : Except String HostConfig :=
  let host := trimChars host0
  if host == ['*'] then .ok .any
  else if host == "self".data || host == "self.alt".data then .ok .toSelf
  else if host.head? == some chrLBrace then
    if host.getLast? == some chrRBrace then .error "host lists are not yet supported"
    else .error "invalid host list"
  else
    match ipNetworkFromStrTruncate host with
    | some net => .ok (.cidr net)
    | none =>
      let host2 := trimEndMatchesChar host '/'
      if host2.contains '/' then .error "must not include a path"
      else
        match stripPfx ['*', '.'] host2 with
        | some dom =>
          if dom.contains '*' then .error "wildcards are allowed only as subdomain patterns"
          else .ok (.anySubdomain (String.mk ('.' :: dom)))
        | none =>
          if host2.contains '*' then .error "wildcards are allowed only as subdomains"
          else
            match hostParseChars host2 with
            | some h => .ok (.literal h)
            | none => .error "invalid host"

/-- Model of `HostConfig::allows`: re-parse the URL host (failure denies),
then match by host-config shape.  Subdomain patterns match only domains;
CIDR patterns match only IP literals; `ToSelf` never matches an absolute
URL. -/
def HostConfig.allows (hc : HostConfig) (host : String) : Bool :=
  match hostParseChars host.data with
  | none => false
  | some h =>
    match hc, h with
    | .any, _ => true
    | .anySubdomain suf, .domain d => endsWithChars d.data suf.data
    | .literal lit, hh => hh == lit
    | .cidr c, .ipv4 ip => c.contains (.v4 ip)
    | .cidr c, .ipv6 ip => c.contains (.v6 ip)
    | .anySubdomain _, _ => false
    | .cidr _, .domain _ => false
    | .toSelf, _ => false

/-- Model of `HostConfig::allows_relative`. -/
def HostConfig.allowsRelative : HostConfig → Bool
  | .any => true
  | .toSelf => true
  | _ => false

/-- Model of `IndividualPortConfig`: one port specifier. -/
inductive IndividualPortConfig where
  | port (p : Nat)
  | range (s e : Nat)
deriving DecidableEq, Repr

/-- Model of `IndividualPortConfig::parse`: a `start..end` range (split at the
first `..`) or a single `u16`. -/
def IndividualPortConfig.parse (port : List Char) : Except String IndividualPortConfig :=
  match splitOnceChars port ['.', '.'] with
  | some (s, e) =>
    match parseU16 s with
    | some sv =>
      match parseU16 e with
      | some ev => .ok (.range sv ev)
      | none => .error "port range contains non-number"
    | none => .error "port range contains non-number"
  | none =>
    match parseU16 port with
    | some p => .ok (.port p)
    | none => .error "port is not a number"

/-- Model of `IndividualPortConfig::allows`: a single port matches by
equality; `Range(s, e)` contains `p` iff `s ≤ p < e` (Rust
`Range::contains`). -/
def IndividualPortConfig.allows (ipc : IndividualPortConfig) (port : Nat) : Bool :=
  match ipc with
  | .port p => p == port
  | .range s e => decide (s ≤ port) && decide (port < e)

/-- Model of `well_known_port`. -/
def wellKnownPort (scheme : String) : Option Nat :=
  if scheme == "postgres" then some 5432
  else if scheme == "mysql" then some 3306
  else if scheme == "redis" then some 6379
  else if scheme == "mqtt" then some 1883
  else if scheme == "http" then some 80
  else if scheme == "https" then some 443
  else none

/-- Model of `PortConfig`: the port part of one allow-list item. -/
inductive PortConfig where
  | any
  | list (l : List IndividualPortConfig)
deriving DecidableEq, Repr

/-- Model of `PortConfig::parse`: empty means the scheme's well-known default
(an error when there is none). -/
def PortConfig.parse (port : List Char) (scheme : List Char) : Except String PortConfig :=
  if port.isEmpty then
    match wellKnownPort (String.mk scheme) with
    | some p => .ok (.list [.port p])
    | none =>
      .error "no port was provided and the scheme does not have a known default port number"
  else if port == ['*'] then .ok .any
  else if port.head? == some chrLBrace then .error "port lists are not yet supported"
  else
    match IndividualPortConfig.parse port with
    | .ok p => .ok (.list [p])
    | .error e => .error e

/-- Model of `PortConfig::allows`: the URL's explicit port, or else the
scheme's well-known default, must fall in one of the port specs. -/
def PortConfig.allows (pc : PortConfig) (port : Option Nat) (scheme : String) : Bool :=
  match pc with
  | .any => true
  | .list l =>
    match (match port with | some p => some p | none => wellKnownPort scheme) with
    | some p => l.any (·.allows p)
    | none => false

/-! ### `OutboundUrl` model

`OutboundUrl::parse` delegates to `url::Url::parse`.  The URL parser is
modelled for `scheme://authority[/...]` inputs: the scheme is lower-cased,
the authority is cut at the first `/`, `?` or `#`, the host is parsed with
the host model above and serialized canonically, and a port equal to the url
crate's default for the scheme (http 80, https 443, ws 80, wss 443, ftp 21)
is dropped.  Inputs with userinfo (`@`) are outside the modelled fragment
(the Rust code percent-encodes the userinfo and keeps going); so are
scheme-relative and path-only forms. -/

/-- A parsed outbound URL (`OutboundUrl`). -/
structure OutboundUrl where
  scheme : String
  host : String
  port : Option Nat
  original : String
deriving DecidableEq, Repr

/-- RFC 3986 scheme shape: one ASCII letter then letters, digits, `+`, `-`,
`.`. -/
def urlSchemeChars (l : List Char) : Bool :=
  match l with
  | [] => false
  | c :: rest =>
    asciiAlpha c && rest.all (fun c => asciiAlpha c || c.isDigit || c == '+' || c == '-' || c == '.')

/-- The url crate's known default ports, dropped from parsed URLs. -/
def urlDefaultPort (scheme : String) : Option Nat :=
  if scheme == "http" then some 80
  else if scheme == "https" then some 443
  else if scheme == "ws" then some 80
  else if scheme == "wss" then some 443
  else if scheme == "ftp" then some 21
  else none

/-- Characters ending the authority section of a URL. -/
def authorityStopChar (c : Char) : Bool := c == '/' || c == '?' || c == '#'

/-- Split an authority (no userinfo) into host text and optional port text.
A bracketed IPv6 literal keeps its brackets in the host text. -/
def authorityHostPort (auth : List Char) : Option (List Char × Option (List Char)) :=
  if auth.head? == some '[' then
    match splitOnceChar (auth.drop 1) ']' with
    | some (inner, rest) =>
      match rest with
      | [] => some ('[' :: inner ++ [']'], none)
      | ':' :: p => some ('[' :: inner ++ [']'], some p)
      | _ => none
    | none => none
  else
    match splitOnceChar auth ':' with
    | some (h, p) => some (h, some p)
    | none => some (auth, none)

/-- Port section of a URL: absent or empty means no port; otherwise a `u16`. -/
def parsePortOpt : Option (List Char) → Option (Option Nat)
  | none => some none
  | some [] => some none
  | some p => (parseU16 p).map some

/-- Model of `url::Url::parse` restricted as described above, returning
(scheme, canonical host string, port after default-stripping). -/
def urlParseModel (l : List Char) : Option (String × String × Option Nat) :=
  match splitOnceChars l "://".data with
  | none => none
  | some (scheme, rest) =>
    if !urlSchemeChars scheme then none
    else
      let schemeL := String.mk (scheme.map lowerAsciiChar)
      let auth := rest.takeWhile (fun c => !authorityStopChar c)
      if auth.contains '@' then none
      else
        match authorityHostPort auth with
        | none => none
        | some (hostStr, portStr) =>
          match hostParseChars hostStr with
          | none => none
          | some h =>
            match parsePortOpt portStr with
            | none => none
            | some portv =>
              let port :=
                match portv, urlDefaultPort schemeL with
                | some n, some d => if n == d then none else some n
                | pv, _ => pv
              some (schemeL, hostSerialize h, port)

/-- Model of `OutboundUrl::parse`: try the input as a full URL; on failure,
retry with the fallback scheme prepended.  The model returns `none` where the
Rust code returns an error. -/
def OutboundUrl.parse (url : String) (scheme : String) : Option OutboundUrl :=
  if url.data.contains '@' then none
  else
    match urlParseModel url.data with
    | some (sc, h, p) => some ⟨sc, h, p, url⟩
    | none =>
      match urlParseModel (scheme ++ "://" ++ url).data with
      | some (sc, h, p) => some ⟨sc, h, p, url⟩
      | none => none

/-! ### One allow-list item and the aggregate configuration -/

/-- Model of `AllowedHostConfig`: one parsed allow-list item. -/
structure AllowedHostConfig where
  original : String
  scheme : SchemeConfig
  host : HostConfig
  port : PortConfig
deriving DecidableEq, Repr

/-- Final stage of `AllowedHostConfig::parse`: port is parsed first, then
scheme, then host, as in the source. -/
def AllowedHostConfig.parsePieces (original : String) (scheme host port : List Char) :
    Except String AllowedHostConfig :=
  match PortConfig.parse port scheme with
  | .error e => .error ("invalid allowed host port: " ++ e)
  | .ok portC =>
    match SchemeConfig.parse scheme with
    | .error e => .error ("invalid allowed host scheme: " ++ e)
    | .ok schemeC =>
      match HostConfig.parse host with
      | .error e => .error ("invalid allowed host: " ++ e)
      | .ok hostC => .ok ⟨original, schemeC, hostC, portC⟩

/-- Middle stage of `AllowedHostConfig::parse`: strip an empty path from the
part after the last colon; a non-empty path is an error. -/
def AllowedHostConfig.parseTail (original : String) (scheme host portPath : List Char) :
    Except String AllowedHostConfig :=
  match splitOnceChar portPath '/' with
  | some (port, path) =>
    if path.isEmpty then AllowedHostConfig.parsePieces original scheme host port
    else .error "has a path but is not allowed to"
  | none => AllowedHostConfig.parsePieces original scheme host portPath

/-- Model of `AllowedHostConfig::parse`: trim, split the scheme at the first
`://`, split host from port at the last `:` (no colon means an empty port
text). -/
def AllowedHostConfig.parse (url0 : String) : Except String AllowedHostConfig :=
  let url := trimChars url0.data
  match splitOnceChars url "://".data with
  | none =>
    if url == ['*'] || url == [':'] || url == [] || url == ['?'] then
      .error
        "not an allowed outbound host format; hosts must be of the form scheme://host with optional port; use *://*:* to allow all outbound networking"
    else .error "does not contain a scheme"
  | some (scheme, rest) =>
    match rsplitOnceChar rest ':' with
    | some (host, portPath) => AllowedHostConfig.parseTail url0 scheme host portPath
    | none => AllowedHostConfig.parseTail url0 scheme rest []

/-- Model of `AllowedHostConfig::allows`: scheme, host and port must all
match. -/
def AllowedHostConfig.allows (c : AllowedHostConfig) (url : OutboundUrl) : Bool :=
  c.scheme.allows url.scheme && c.host.allows url.host && c.port.allows url.port url.scheme

/-- Model of `AllowedHostConfig::allows_relative`. -/
def AllowedHostConfig.allowsRelative (c : AllowedHostConfig) (schemes : List String) : Bool :=
  schemes.any (fun s => c.scheme.allows s) && c.host.allowsRelative

/-- Model of `AllowedHostsConfig`: the aggregate allow-list. -/
inductive AllowedHostsConfig where
  | all
  | specificHosts (hosts : List AllowedHostConfig)
deriving DecidableEq, Repr

/-- Model of `AllowedHostsConfig::allows`: `All` allows everything, otherwise
some item must allow the URL. -/
def AllowedHostsConfig.allows (c : AllowedHostsConfig) (url : OutboundUrl) : Bool :=
  match c with
  | .all => true
  | .specificHosts hosts => hosts.any (·.allows url)

/-- Model of `AllowedHostsConfig::allows_relative_url`. -/
def AllowedHostsConfig.allowsRelativeUrl (c : AllowedHostsConfig) (schemes : List String) : Bool :=
  match c with
  | .all => true
  | .specificHosts hosts => hosts.any (·.allowsRelative schemes)

/-- Model of `AllowedHostsConfig::parse_partial`: the reserved literal
`insecure:allow-all` as the sole entry is rejected outright; every other
entry is parsed.  Templated entries (`spin_expressions::Template`) are
outside the modelled fragment: all inputs here are literal, for which
`Template::is_literal` holds and parsing happens eagerly. -/
def AllowedHostsConfig.parsePartial (hosts : List String) :
    Except String (List AllowedHostConfig) :=
  if hosts.length == 1 && hosts.headD "" == "insecure:allow-all" then
    .error
      "insecure:allow-all is not allowed - use *://*:* instead if you really want to allow all outbound traffic"
  else hosts.mapM AllowedHostConfig.parse

/-- Model of `AllowedHostsConfig::parse` (with a resolver under which every
entry is literal). -/
def AllowedHostsConfig.parse (hosts : List String) : Except String AllowedHostsConfig :=
  match AllowedHostsConfig.parsePartial hosts with
  | .ok l => .ok (.specificHosts l)
  | .error e => .error e

/-! ### The policy gate (`OutboundAllowedHosts`)

The shared memoized future `SharedFutureResult<AllowedHostsConfig>` is
modelled by its cached outcome: after the one-time resolution, every check
observes the same `Except` value.  The optional `DisallowedHostHandler` only
observes denials and cannot change any result, so it is omitted from the
state. -/

/-- Model of `OutboundAllowedHosts`. -/
structure OutboundAllowedHosts where
  resolution : Except String AllowedHostsConfig

/-- Model of `OutboundAllowedHosts::check_url`: an unparseable URL is `Ok
false` before resolution is consulted; then the resolved configuration
decides, and a cached resolution failure is propagated with `?`. -/
def OutboundAllowedHosts.checkUrl (g : OutboundAllowedHosts) (url : String) (scheme : String) :
    Except String Bool :=
  match OutboundUrl.parse url scheme with
  | none => .ok false
  | some u =>
    match g.resolution with
    | .error e => .error e
    | .ok cfg => .ok (cfg.allows u)

/-- Model of `OutboundAllowedHosts::check_relative_url`. -/
def OutboundAllowedHosts.checkRelativeUrl (g : OutboundAllowedHosts) (schemes : List String) :
    Except String Bool :=
  match g.resolution with
  | .error e => .error e
  | .ok cfg => .ok (cfg.allowsRelativeUrl schemes)

/-! ### Blocked networks (`outbound-networking-config/src/blocked_networks.rs`) -/

/-- Model of `BlockedNetworks`.  The `IpNetworkTable` is modelled as the list
of inserted networks; `longest_match(addr).is_some()` is containment in some
inserted network. -/
structure BlockedNetworks where
  networks : List IpNetwork
  blockPrivate : Bool

/-- Model of `BlockedNetworks::new`.  `IpNetwork::collapse_addresses` merges
redundant networks without changing the set of contained addresses and is
modelled as the identity (only containment is observable here); with
`block_private` set, non-global networks are omitted as redundant. -/
def BlockedNetworks.new (blockNetworks : List IpNetwork) (blockPrivateNetworks : Bool) :
    BlockedNetworks :=
  { networks := blockNetworks.filter (fun n => !(blockPrivateNetworks && !n.isGlobal))
    blockPrivate := blockPrivateNetworks }

/-- `longest_match(addr).is_some()` on the modelled table. -/
def BlockedNetworks.matchesTable (bn : BlockedNetworks) (a : IpAddr) : Bool :=
  bn.networks.any (·.contains a)

/-- The IPv4 half of `BlockedNetworks::is_blocked` (on which the IPv6 half
can recurse at most once, so the source's recursion is unrolled). -/
def BlockedNetworks.isBlockedV4 (bn : BlockedNetworks) (a : Nat) : Bool :=
  (bn.blockPrivate && !(IpAddr.v4 a).isGlobalAddr) || bn.matchesTable (.v4 a)

/-- Model of `BlockedNetworks::is_blocked`: blocked when `block_private` is
set and the address is not globally routable, or the table matches, or (for
IPv6) the embedded IPv4-compatible/mapped address is itself blocked. -/
def BlockedNetworks.isBlocked (bn : BlockedNetworks) : IpAddr → Bool
  | .v4 a => bn.isBlockedV4 a
  | .v6 a =>
    (bn.blockPrivate && !(IpAddr.v6 a).isGlobalAddr) || bn.matchesTable (.v6 a)
      || (match ipv6ToIpv4 a with
          | some b => bn.isBlockedV4 b
          | none => false)

/-! ### TLS client configuration selection
(`factor-outbound-networking/src/tls.rs`)

`TlsClientConfig::new` builds a `rustls::ClientConfig` from root
certificates, the webpki flag and an optional client certificate; that
construction is external to this subsystem and is abstracted to an opaque
identity (`tlsConfig : Nat`).  The nested hash maps are modelled as
association lists: only keyed lookup and insert-if-absent are observable. -/

/-- Model of one `ClientTlsRuntimeConfig` entry, its built TLS client config
abstracted to `tlsConfig`. -/
structure ClientTlsRuntimeConfig where
  components : List String
  hosts : List String
  tlsConfig : Nat
deriving DecidableEq, Repr

/-- Association-list lookup (model of `HashMap::get`). -/
def alGet {β : Type} : List (String × β) → String → Option β
  | [], _ => none
  | (k, v) :: rest, key => if k == key then some v else alGet rest key

/-- Association-list insert-or-replace (model of `HashMap` entry update). -/
def alSet {β : Type} : List (String × β) → String → β → List (String × β)
  | [], key, v => [(key, v)]
  | (k, w) :: rest, key, v =>
    if k == key then (k, v) :: rest else (k, w) :: alSet rest key v

/-- Model of `validate_host`: an authority without a port.  Modelled for
bracketless hosts: non-empty and colon-free (a colon would carry a port). -/
def validateHost (host : String) : Except String Unit :=
  if host.data.isEmpty then .error "invalid TLS host"
  else if host.data.contains ':' then .error "ports not currently supported"
  else .ok ()

/-- Inner loop of `TlsClientConfigs::new`: for each host, validate it and
insert the config only if the host has no mapping yet (`entry..or_insert_with`:
first match wins). -/
def insertEntryHosts (hm : List (String × Nat)) (hosts : List String) (cfg : Nat) :
    Except String (List (String × Nat)) :=
  match hosts with
  | [] => .ok hm
  | h :: rest =>
    match validateHost h with
    | .error e => .error e
    | .ok _ =>
      let hm2 :=
        match alGet hm h with
        | some _ => hm
        | none => alSet hm h cfg
      insertEntryHosts hm2 rest cfg

/-- Middle loop of `TlsClientConfigs::new`: for each component, update its
host map (created empty on first sight, `entry..or_default`). -/
def insertEntryComponents (m : List (String × List (String × Nat))) (comps : List String)
    (hosts : List String) (cfg : Nat) : Except String (List (String × List (String × Nat))) :=
  match comps with
  | [] => .ok m
  | c :: rest =>
    match insertEntryHosts ((alGet m c).getD []) hosts cfg with
    | .error e => .error e
    | .ok hm2 => insertEntryComponents (alSet m c hm2) rest hosts cfg

/-- Outer loop of `TlsClientConfigs::new` over the configured entries. -/
def TlsClientConfigs.newGo (entries : List ClientTlsRuntimeConfig)
    (m : List (String × List (String × Nat))) :
    Except String (List (String × List (String × Nat))) :=
  match entries with
  | [] => .ok m
  | e :: rest =>
    if e.components.isEmpty then .error "client TLS components list may not be empty"
    else if e.hosts.isEmpty then .error "client TLS hosts list may not be empty"
    else
      match insertEntryComponents m e.components e.hosts e.tlsConfig with
      | .error er => .error er
      | .ok m2 => TlsClientConfigs.newGo rest m2

/-- Model of `TlsClientConfigs::new`: the nested component-to-host-to-config
map. -/
def TlsClientConfigs.new (entries : List ClientTlsRuntimeConfig) :
    Except String (List (String × List (String × Nat))) :=
  TlsClientConfigs.newGo entries []

/-- The component- and host-specific lookup half of
`get_component_tls_configs` plus `get_client_config`. -/
def getComponentHostConfig (m : List (String × List (String × Nat)))
    (component host : String) : Option Nat :=
  match alGet m component with
  | none => none
  | some hm => alGet hm host

/-- Model of `get_component_tls_configs(component).get_client_config(host)`:
the specific config if present, else the process default. -/
def getTlsClientConfig (m : List (String × List (String × Nat))) (defaultCfg : Nat)
    (component host : String) : Nat :=
  (getComponentHostConfig m component host).getD defaultCfg

/-- Whether one entry mentions the (component, host) pair. -/
def entryCovers (e : ClientTlsRuntimeConfig) (component host : String) : Bool :=
  e.components.contains component && e.hosts.contains host

/-- The config of the earliest entry covering the pair, if any. -/
def firstCoveringConfig (entries : List ClientTlsRuntimeConfig) (component host : String) :
    Option Nat :=
  (entries.find? (fun e => entryCovers e component host)).map (·.tlsConfig)

/-! ### Validity predicates for round-trip statements

`validity` of a concrete `scheme://host:port` triple is expressed by
executable checks on the three pieces; a host is taken in its canonical form
(the form `url::Url` serializes it back to), which is what "normalized
identically" in the specification refers to. -/

/-- Characters that may appear between the brackets of an IPv6 literal. -/
def v6InnerChar (c : Char) : Bool :=
  c.isDigit || ('a' ≤ c && c ≤ 'f') || ('A' ≤ c && c ≤ 'F') || c == ':'

/-- Characters of an IPv6 literal pattern body, including the embedded-IPv4
dot. -/
def v6PatternChar (c : Char) : Bool := v6InnerChar c || c == '.'

/-- First-some choice on options (Rust `Option::or`). -/
def optOr {α : Type} : Option α → Option α → Option α
  | some a, _ => some a
  | none, b => b

/-! ### Helper lemmas on the string primitives -/

theorem dropWhile_eq_self_of_not {p : Char → Bool} {l : List Char}
    (h : ∀ c ∈ l, p c = false) : l.dropWhile p = l := by
  cases l with
  | nil => rfl
  | cons x xs =>
    simp only [List.dropWhile]
    rw [h x (by simp)]

theorem trimChars_eq_self {l : List Char} (h : ∀ c ∈ l, wsChar c = false) :
    trimChars l = l := by
  unfold trimChars
  rw [dropWhile_eq_self_of_not h, dropWhile_eq_self_of_not, List.reverse_reverse]
  intro c hc
  exact h c (List.mem_reverse.mp hc)

theorem isPrefixOf_append_self (l t : List Char) : l.isPrefixOf (l ++ t) = true := by
  induction l with
  | nil => simp [List.isPrefixOf]
  | cons x xs ih => simp [List.isPrefixOf, ih]

theorem splitOnceChars_append {a : List Char} {s0 : Char} (srest b : List Char)
    (h : ∀ c ∈ a, c ≠ s0) :
    splitOnceChars (a ++ (s0 :: (srest ++ b))) (s0 :: srest) = some (a, b) := by
  induction a with
  | nil =>
    have hpre : (s0 :: srest).isPrefixOf (s0 :: (srest ++ b)) = true := by
      simp [List.isPrefixOf, isPrefixOf_append_self]
    simp only [List.nil_append, splitOnceChars, hpre, if_true]
    have hdrop : List.drop (s0 :: srest).length (s0 :: (srest ++ b)) = b := by
      simp [List.drop_left]
    simp [hdrop]
  | cons x xs ih =>
    have hx : x ≠ s0 := h x (by simp)
    have hpre : (s0 :: srest).isPrefixOf (x :: (xs ++ (s0 :: (srest ++ b)))) = false := by
      simp [List.isPrefixOf, Ne.symm hx]
    simp only [List.cons_append, splitOnceChars, List.append_eq, hpre, Bool.false_eq_true,
      if_false]
    rw [ih (fun c hc => h c (by simp [hc]))]

theorem isPrefixOf_eq_append {l t : List Char} (h : l.isPrefixOf t = true) :
    t = l ++ t.drop l.length := by
  induction l generalizing t with
  | nil => simp
  | cons x xs ih =>
    cases t with
    | nil => simp [List.isPrefixOf] at h
    | cons y ys =>
      simp only [List.isPrefixOf, Bool.and_eq_true, beq_iff_eq] at h
      obtain ⟨hxy, hrest⟩ := h
      simpa [hxy] using ih hrest

theorem splitOnceChars_eq_append {l sep a b : List Char}
    (h : splitOnceChars l sep = some (a, b)) : l = a ++ sep ++ b := by
  induction l generalizing a b with
  | nil =>
    simp only [splitOnceChars] at h
    by_cases hs : sep.isEmpty
    · simp only [hs, if_true, Option.some.injEq, Prod.mk.injEq] at h
      obtain ⟨h1, h2⟩ := h
      simp [← h1, ← h2, List.isEmpty_iff.mp hs]
    · simp [hs] at h
  | cons x xs ih =>
    simp only [splitOnceChars] at h
    by_cases hpre : sep.isPrefixOf (x :: xs) = true
    · simp only [hpre, if_true, Option.some.injEq, Prod.mk.injEq] at h
      obtain ⟨h1, h2⟩ := h
      rw [← h1, ← h2]
      simpa using isPrefixOf_eq_append hpre
    · rw [Bool.not_eq_true] at hpre
      simp only [hpre, Bool.false_eq_true, if_false] at h
      cases hrec : splitOnceChars xs sep with
      | none => rw [hrec] at h; exact absurd h (by simp)
      | some p =>
        obtain ⟨a2, b2⟩ := p
        rw [hrec] at h
        simp only [Option.some.injEq, Prod.mk.injEq] at h
        obtain ⟨h1, h2⟩ := h
        rw [← h1, ← h2]
        simpa using ih hrec

theorem splitOnceChar_none {l : List Char} {c : Char} (h : c ∉ l) :
    splitOnceChar l c = none := by
  induction l with
  | nil => rfl
  | cons x xs ih =>
    have hx : (x == c) = false := by
      simp only [beq_eq_false_iff_ne, ne_eq]
      intro he
      exact h (he ▸ List.mem_cons_self x xs)
    simp only [splitOnceChar, hx, Bool.false_eq_true, if_false]
    rw [ih (fun hm => h (List.mem_cons_of_mem x hm))]

theorem rsplitOnceChar_none {l : List Char} {c : Char} (h : c ∉ l) :
    rsplitOnceChar l c = none := by
  induction l with
  | nil => rfl
  | cons x xs ih =>
    have hx : (x == c) = false := by
      simp only [beq_eq_false_iff_ne, ne_eq]
      intro he
      exact h (he ▸ List.mem_cons_self x xs)
    simp only [rsplitOnceChar]
    rw [ih (fun hm => h (List.mem_cons_of_mem x hm))]
    simp [hx]

theorem rsplitOnceChar_append {x y : List Char} {c : Char} (h : c ∉ y) :
    rsplitOnceChar (x ++ c :: y) c = some (x, y) := by
  induction x with
  | nil =>
    simp only [List.nil_append, rsplitOnceChar]
    rw [rsplitOnceChar_none h]
    simp
  | cons z zs ih =>
    simp only [List.cons_append, rsplitOnceChar, List.append_eq]
    rw [ih]

theorem exists_last_split {l : List Char} {c : Char} (h : c ∈ l) :
    ∃ l1 l2, l = l1 ++ c :: l2 ∧ c ∉ l2 := by
  induction l with
  | nil => cases h
  | cons x xs ih =>
    by_cases hm : c ∈ xs
    · obtain ⟨l1, l2, heq, hnot⟩ := ih hm
      exact ⟨x :: l1, l2, by simp [heq], hnot⟩
    · have hx : x = c := by
        rcases List.mem_cons.mp h with h1 | h2
        · exact h1.symm
        · exact absurd h2 hm
      exact ⟨[], xs, by simp [hx], hm⟩

theorem parseNatDigits_of {l : List Char} (h1 : l ≠ []) (h2 : l.all (·.isDigit) = true) :
    parseNatDigits l = some (digitsVal l) := by
  unfold parseNatDigits
  rw [if_neg (by simpa using h1), if_pos h2]

theorem parseNatDigits_none_of_mem {l : List Char} {x : Char} (hm : x ∈ l)
    (hd : x.isDigit = false) : parseNatDigits l = none := by
  unfold parseNatDigits
  have hall : l.all (·.isDigit) = false := by
    rw [Bool.eq_false_iff]
    intro hall
    rw [List.all_eq_true] at hall
    have := hall x hm
    rw [hd] at this
    exact absurd this (by simp)
  rw [hall]
  simp only [Bool.false_eq_true, if_false]
  split <;> rfl

theorem mem_of_getLast?_eq {l : List Char} {a : Char} (h : l.getLast? = some a) : a ∈ l := by
  induction l with
  | nil => simp at h
  | cons x xs ih =>
    cases xs with
    | nil =>
      simp only [List.getLast?_singleton, Option.some.injEq] at h
      simp [h]
    | cons y ys =>
      rw [List.getLast?_cons_cons] at h
      exact List.mem_cons_of_mem x (ih h)

/-! ### Claim C1 — behaviour of checks after a failed policy resolution -/

/-- C1 counterexample: with the one-time resolution failed and a perfectly
parseable URL, `check_url` returns the cached resolution error (it propagates
it with the `?` operator), not `Ok(false)`; `check_relative_url` likewise
returns the error. -/
theorem c1_resolution_failure_counterexample :
    (OutboundAllowedHosts.mk (.error "resolution failed")).checkUrl
        "http://example.com:80" "http" = .error "resolution failed" ∧
    ¬((OutboundAllowedHosts.mk (.error "resolution failed")).checkUrl
        "http://example.com:80" "http" = .ok false) ∧
    (OutboundAllowedHosts.mk (.error "resolution failed")).checkRelativeUrl ["http"]
        = .error "resolution failed" := by
  refine ⟨rfl, ?_, rfl⟩
  intro h
  have he : (OutboundAllowedHosts.mk (Except.error "resolution failed")).checkUrl
      "http://example.com:80" "http" = Except.error "resolution failed" := rfl
  rw [he] at h
  exact Except.noConfusion h

/-- C1 (amended): once its policy resolution has failed, a `PolicyGate` never
reports any request as allowed: `check_url` returns either `Ok(false)` (for a
URL that does not parse) or the cached resolution error, never `Ok(true)`,
and `check_relative_url` always returns the cached error. -/
theorem c1_resolution_failure_denies (g : OutboundAllowedHosts) (e : String)
    (h : g.resolution = .error e) :
    (∀ url scheme, g.checkUrl url scheme = .ok false ∨ g.checkUrl url scheme = .error e) ∧
    (∀ url scheme, g.checkUrl url scheme ≠ .ok true) ∧
    (∀ schemes, g.checkRelativeUrl schemes = .error e) := by
  refine ⟨?_, ?_, ?_⟩
  · intro url scheme
    cases hp : OutboundUrl.parse url scheme with
    | none => exact Or.inl (by simp [OutboundAllowedHosts.checkUrl, hp])
    | some u => exact Or.inr (by simp [OutboundAllowedHosts.checkUrl, hp, h])
  · intro url scheme
    cases hp : OutboundUrl.parse url scheme with
    | none => simp [OutboundAllowedHosts.checkUrl, hp]
    | some u => simp [OutboundAllowedHosts.checkUrl, hp, h]
  · intro schemes
    simp [OutboundAllowedHosts.checkRelativeUrl, h]

/-- C1 witness: the amended theorem applied to a concrete gate with a failed
resolution. -/
theorem c1_resolution_failure_denies_witness :
    (OutboundAllowedHosts.mk (.error "nope")).checkUrl "https://api.example.com" "https"
        ≠ .ok true ∧
    (OutboundAllowedHosts.mk (.error "nope")).checkRelativeUrl ["http", "https"]
        = .error "nope" :=
  ⟨(c1_resolution_failure_denies (OutboundAllowedHosts.mk (.error "nope")) "nope" rfl).2.1
      "https://api.example.com" "https",
   (c1_resolution_failure_denies (OutboundAllowedHosts.mk (.error "nope")) "nope" rfl).2.2
      ["http", "https"]⟩

/-! ### Claim C2 — private-network blocking and the IPv4-in-IPv6 defence -/

/-- C2: `BlockedNetworks::new([], block_private=true)` blocks 127.0.0.1,
10.0.0.1, ::1 and ::ffff:10.0.0.1 but not 8.8.8.8; and for any blocked-network
set, an IPv6 address with an embedded IPv4-compatible or IPv4-mapped address
is blocked whenever the embedded IPv4 address is blocked. -/
theorem c2_blocked_networks :
    (BlockedNetworks.new [] true).isBlocked (.v4 0x7F000001) = true ∧
    (BlockedNetworks.new [] true).isBlocked (.v4 0x0A000001) = true ∧
    (BlockedNetworks.new [] true).isBlocked (.v6 1) = true ∧
    (BlockedNetworks.new [] true).isBlocked (.v6 0xFFFF0A000001) = true ∧
    (BlockedNetworks.new [] true).isBlocked (.v4 0x08080808) = false ∧
    (∀ (bn : BlockedNetworks) (a b : Nat), ipv6ToIpv4 a = some b →
      bn.isBlocked (.v4 b) = true → bn.isBlocked (.v6 a) = true) := by
  refine ⟨by decide, by decide, by decide, by decide, by decide, ?_⟩
  intro bn a b h1 h2
  have h2' : bn.isBlockedV4 b = true := h2
  simp [BlockedNetworks.isBlocked, h1, h2']

/-- C2 witness: the universal defence clause applied to the mapped form of
10.0.0.1 in the block-private set. -/
theorem c2_blocked_networks_witness :
    ipv6ToIpv4 0xFFFF0A000001 = some 0x0A000001 ∧
    (BlockedNetworks.new [] true).isBlocked (.v4 0x0A000001) = true ∧
    (BlockedNetworks.new [] true).isBlocked (.v6 0xFFFF0A000001) = true :=
  ⟨by decide, by decide,
    c2_blocked_networks.2.2.2.2.2 (BlockedNetworks.new [] true) 0xFFFF0A000001 0x0A000001
      (by decide) (by decide)⟩

/-! ### Claim C4 — unparseable candidate URLs are denied, not errors -/

/-- C4: whenever the candidate URL cannot be normalized into an
`OutboundUrl`, `check_url` returns `Ok(false)` regardless of the gate's
resolution state: the parse failure is handled before resolution is
consulted and no error reaches the caller. -/
theorem c4_unparseable_url_denied (g : OutboundAllowedHosts) (url scheme : String)
    (h : OutboundUrl.parse url scheme = none) :
    g.checkUrl url scheme = .ok false := by
  simp [OutboundAllowedHosts.checkUrl, h]

/-- C4 witness: the empty candidate fails to parse (under both attempts) and
is denied with `Ok(false)` even on a gate whose resolution failed. -/
theorem c4_unparseable_url_denied_witness :
    OutboundUrl.parse "" "http" = none ∧
    (OutboundAllowedHosts.mk (.error "resolver down")).checkUrl "" "http" = .ok false :=
  ⟨rfl, c4_unparseable_url_denied (OutboundAllowedHosts.mk (.error "resolver down")) "" "http" rfl⟩

/-! ### Claim C5 — subdomain wildcard host matching -/

/-- C5: the pattern host `*.example.com` parses to the subdomain matcher with
suffix `.example.com`; it allows `a.example.com` and `a.b.example.com` but
neither `example.com` nor `notexample.com`; and in general a subdomain
matcher accepts a URL host iff that host parses as a domain (never an IP
literal) ending with the stored suffix. -/
theorem c5_subdomain_matching :
    HostConfig.parse "*.example.com".data = .ok (.anySubdomain ".example.com") ∧
    HostConfig.allows (.anySubdomain ".example.com") "a.example.com" = true ∧
    HostConfig.allows (.anySubdomain ".example.com") "a.b.example.com" = true ∧
    HostConfig.allows (.anySubdomain ".example.com") "example.com" = false ∧
    HostConfig.allows (.anySubdomain ".example.com") "notexample.com" = false ∧
    (∀ (suf host : String), HostConfig.allows (.anySubdomain suf) host = true ↔
      ∃ d, hostParseChars host.data = some (.domain d) ∧
        endsWithChars d.data suf.data = true) := by
  refine ⟨rfl, rfl, rfl, rfl, rfl, ?_⟩
  intro suf host
  unfold HostConfig.allows
  cases hp : hostParseChars host.data with
  | none => simp
  | some h =>
    cases h with
    | domain d => simp
    | ipv4 a => simp
    | ipv6 a => simp

/-! ### Claim C6 — port matcher semantics -/

/-- C6: `Any` matches every URL; a port list matches iff the URL's explicit
port — or, absent one, the scheme's well-known default — exists and falls in
some listed spec; a range spec `a..b` contains `p` iff `a ≤ p < b`; with
neither an explicit port nor a known default nothing matches; the well-known
defaults are http 80, https 443, postgres 5432, mysql 3306, redis 6379,
mqtt 1883; and parsing an empty port with a scheme lacking a default is an
error. -/
theorem c6_port_matcher :
    (∀ (p : Option Nat) (s : String), PortConfig.allows .any p s = true) ∧
    (∀ (l : List IndividualPortConfig) (n : Nat) (s : String),
      PortConfig.allows (.list l) (some n) s = true ↔ ∃ ipc ∈ l, ipc.allows n = true) ∧
    (∀ (l : List IndividualPortConfig) (s : String) (n : Nat), wellKnownPort s = some n →
      (PortConfig.allows (.list l) none s = true ↔ ∃ ipc ∈ l, ipc.allows n = true)) ∧
    (∀ (l : List IndividualPortConfig) (s : String), wellKnownPort s = none →
      PortConfig.allows (.list l) none s = false) ∧
    (∀ a b n : Nat, IndividualPortConfig.allows (.range a b) n = true ↔ a ≤ n ∧ n < b) ∧
    (wellKnownPort "http" = some 80 ∧ wellKnownPort "https" = some 443 ∧
      wellKnownPort "postgres" = some 5432 ∧ wellKnownPort "mysql" = some 3306 ∧
      wellKnownPort "redis" = some 6379 ∧ wellKnownPort "mqtt" = some 1883) ∧
    (∀ s : String, wellKnownPort s = none → ∃ e, PortConfig.parse [] s.data = .error e) := by
  refine ⟨fun p s => rfl, ?_, ?_, ?_, ?_, ⟨rfl, rfl, rfl, rfl, rfl, rfl⟩, ?_⟩
  · intro l n s
    simp [PortConfig.allows, List.any_eq_true]
  · intro l s n h
    simp [PortConfig.allows, h, List.any_eq_true]
  · intro l s h
    simp [PortConfig.allows, h]
  · intro a b n
    simp [IndividualPortConfig.allows]
  · intro s h
    have hmk : String.mk s.data = s := rfl
    simp only [PortConfig.parse, List.isEmpty_nil, if_true, hmk, h]
    exact ⟨_, rfl⟩

/-- C6 witness: the defaulting clauses at concrete schemes: the port list
[80] matches a port-less http URL, matches nothing for the default-less
scheme tcp, and an empty pattern port with scheme tcp is a parse error. -/
theorem c6_port_matcher_witness :
    (PortConfig.allows (.list [.port 80]) none "http" = true ↔
      ∃ ipc ∈ [IndividualPortConfig.port 80], ipc.allows 80 = true) ∧
    PortConfig.allows (.list [.port 80]) none "tcp" = false ∧
    (∃ e, PortConfig.parse [] "tcp".data = .error e) :=
  ⟨c6_port_matcher.2.2.1 [.port 80] "http" 80 rfl,
   c6_port_matcher.2.2.2.1 [.port 80] "tcp" rfl,
   c6_port_matcher.2.2.2.2.2.2 "tcp" rfl⟩

/-! ### Claim C8 — the reserved `insecure:allow-all` literal -/

/-- C8: the one-element list `["insecure:allow-all"]` is rejected by
`parse_partial` (and so by `AllowedHostsConfig::parse`) with an error that
names the `*://*:*` wildcard as the explicit alternative; and the single-pattern
parser also rejects the bare string (it has no `://` scheme separator). -/
theorem c8_insecure_allow_all_rejected :
    AllowedHostsConfig.parsePartial ["insecure:allow-all"] = .error
      "insecure:allow-all is not allowed - use *://*:* instead if you really want to allow all outbound traffic" ∧
    containsSub
      "insecure:allow-all is not allowed - use *://*:* instead if you really want to allow all outbound traffic".data
      "*://*:*".data = true ∧
    AllowedHostsConfig.parse ["insecure:allow-all"] = .error
      "insecure:allow-all is not allowed - use *://*:* instead if you really want to allow all outbound traffic" ∧
    AllowedHostConfig.parse "insecure:allow-all" = .error "does not contain a scheme" :=
  ⟨rfl, by decide, rfl, rfl⟩

/-! ### Claim C9 — CIDR patterns with non-zero host bits are truncated -/

/-- C9: the pattern `*://127.0.0.1/24:80` parses successfully, its host
matcher being the truncated network 127.0.0.0/24; consequently it allows
127.0.0.99 (an address other than 127.0.0.1) on port 80; and in general a
CIDR matcher accepts any URL host that parses as an IP address contained in
the network. -/
theorem c9_cidr_truncation :
    AllowedHostConfig.parse "*://127.0.0.1/24:80"
        = .ok ⟨"*://127.0.0.1/24:80", .any, .cidr (.v4 0x7F000000 24), .list [.port 80]⟩ ∧
    OutboundUrl.parse "tcp://127.0.0.99:80" "tcp"
        = some ⟨"tcp", "127.0.0.99", some 80, "tcp://127.0.0.99:80"⟩ ∧
    AllowedHostConfig.allows
        ⟨"*://127.0.0.1/24:80", .any, .cidr (.v4 0x7F000000 24), .list [.port 80]⟩
        ⟨"tcp", "127.0.0.99", some 80, "tcp://127.0.0.99:80"⟩ = true ∧
    ("127.0.0.99" ≠ "127.0.0.1") ∧
    (∀ (net : IpNetwork) (host : String) (a : Nat),
      hostParseChars host.data = some (.ipv4 a) → net.contains (.v4 a) = true →
      HostConfig.allows (.cidr net) host = true) := by
  refine ⟨rfl, rfl, rfl, by decide, ?_⟩
  intro net host a h1 h2
  simp [HostConfig.allows, h1, h2]

/-- C9 witness: the general CIDR-containment clause applied to 127.0.0.99 in
the truncated network 127.0.0.0/24. -/
theorem c9_cidr_truncation_witness :
    hostParseChars "127.0.0.99".data = some (.ipv4 0x7F000063) ∧
    (IpNetwork.v4 0x7F000000 24).contains (.v4 0x7F000063) = true ∧
    HostConfig.allows (.cidr (.v4 0x7F000000 24)) "127.0.0.99" = true :=
  ⟨rfl, rfl, c9_cidr_truncation.2.2.2.2 (.v4 0x7F000000 24) "127.0.0.99" 0x7F000063 rfl rfl⟩

/-! ### Helper lemmas for the TLS identity map -/

theorem optOr_none_right {α : Type} (x : Option α) : optOr x none = x := by
  cases x <;> rfl

theorem optOr_some_absorb {α : Type} (x : Option α) (y : α) (z : Option α) :
    optOr (optOr x (some y)) z = optOr x (some y) := by
  cases x <;> rfl

theorem alGet_alSet {β : Type} (m : List (String × β)) (k k2 : String) (v : β) :
    alGet (alSet m k v) k2 = if k = k2 then some v else alGet m k2 := by
  induction m with
  | nil => by_cases h : k = k2 <;> simp [alGet, alSet, h]
  | cons p rest ih =>
    obtain ⟨pk, pv⟩ := p
    by_cases h1 : pk = k
    · subst h1
      by_cases h2 : pk = k2 <;> simp [alGet, alSet, h2]
    · have h1' : (pk == k) = false := by simpa using h1
      by_cases h3 : pk = k2
      · subst h3
        have h2 : ¬k = pk := fun hx => h1 hx.symm
        simp [alGet, alSet, h1', h2]
      · have h3' : (pk == k2) = false := by simpa using h3
        simp [alGet, alSet, h1', h3', h3, ih]

theorem insertEntryHosts_lookup {hosts : List String} {hm hm2 : List (String × Nat)}
    {cfg : Nat} (h : insertEntryHosts hm hosts cfg = .ok hm2) (hkey : String) :
    alGet hm2 hkey
      = optOr (alGet hm hkey) (if hkey ∈ hosts then some cfg else none) := by
  induction hosts generalizing hm with
  | nil =>
    simp only [insertEntryHosts, Except.ok.injEq] at h
    subst h
    simp [optOr_none_right]
  | cons h0 rest ih =>
    simp only [insertEntryHosts] at h
    cases hv : validateHost h0 with
    | error e => rw [hv] at h; exact absurd h (by simp)
    | ok u =>
      rw [hv] at h
      cases hA : alGet hm h0 with
      | some v =>
        rw [hA] at h
        rw [ih h]
        by_cases he : h0 = hkey
        · subst he
          simp [hA, optOr]
        · have he2 : ¬hkey = h0 := fun hx => he hx.symm
          simp [he2]
      | none =>
        rw [hA] at h
        rw [ih h, alGet_alSet]
        by_cases he : h0 = hkey
        · subst he
          simp [hA, optOr]
        · have he2 : ¬hkey = h0 := fun hx => he hx.symm
          simp [he, he2]

theorem alGet_getD_nested (m : List (String × List (String × Nat))) (c0 h : String) :
    alGet ((alGet m c0).getD []) h = getComponentHostConfig m c0 h := by
  unfold getComponentHostConfig
  cases alGet m c0 <;> simp [alGet]

theorem getComponentHostConfig_alSet (m : List (String × List (String × Nat)))
    (c0 : String) (hm : List (String × Nat)) (c h : String) :
    getComponentHostConfig (alSet m c0 hm) c h
      = if c0 = c then alGet hm h else getComponentHostConfig m c h := by
  unfold getComponentHostConfig
  rw [alGet_alSet]
  by_cases he : c0 = c <;> simp [he]

theorem insertEntryComponents_lookup {comps : List String}
    {m m2 : List (String × List (String × Nat))} {hosts : List String} {cfg : Nat}
    (h : insertEntryComponents m comps hosts cfg = .ok m2) (c hkey : String) :
    getComponentHostConfig m2 c hkey
      = optOr (getComponentHostConfig m c hkey)
          (if c ∈ comps ∧ hkey ∈ hosts then some cfg else none) := by
  induction comps generalizing m with
  | nil =>
    simp only [insertEntryComponents, Except.ok.injEq] at h
    subst h
    simp [optOr_none_right]
  | cons c0 rest ih =>
    simp only [insertEntryComponents] at h
    cases hH : insertEntryHosts ((alGet m c0).getD []) hosts cfg with
    | error e => rw [hH] at h; exact absurd h (by simp)
    | ok hm2 =>
      rw [hH] at h
      rw [ih h, getComponentHostConfig_alSet]
      by_cases he : c0 = c
      · subst he
        rw [if_pos rfl, insertEntryHosts_lookup hH hkey, alGet_getD_nested]
        by_cases hh : hkey ∈ hosts
        · simp [hh, optOr_some_absorb]
        · simp [hh, optOr_none_right]
      · rw [if_neg he]
        have he2 : ¬c = c0 := fun hx => he hx.symm
        simp [he2]

theorem tlsNewGo_lookup {entries : List ClientTlsRuntimeConfig}
    {m m2 : List (String × List (String × Nat))}
    (h : TlsClientConfigs.newGo entries m = .ok m2) (c hkey : String) :
    getComponentHostConfig m2 c hkey
      = optOr (getComponentHostConfig m c hkey) (firstCoveringConfig entries c hkey) := by
  induction entries generalizing m with
  | nil =>
    simp only [TlsClientConfigs.newGo, Except.ok.injEq] at h
    subst h
    simp [firstCoveringConfig, optOr_none_right]
  | cons e rest ih =>
    simp only [TlsClientConfigs.newGo] at h
    by_cases hc1 : e.components.isEmpty
    · rw [if_pos hc1] at h; exact absurd h (by simp)
    · rw [if_neg hc1] at h
      by_cases hc2 : e.hosts.isEmpty
      · rw [if_pos hc2] at h; exact absurd h (by simp)
      · rw [if_neg hc2] at h
        cases hE : insertEntryComponents m e.components e.hosts e.tlsConfig with
        | error er => rw [hE] at h; exact absurd h (by simp)
        | ok m1 =>
          rw [hE] at h
          rw [ih h, insertEntryComponents_lookup hE]
          have hfc : firstCoveringConfig (e :: rest) c hkey
              = if entryCovers e c hkey = true then some e.tlsConfig
                else firstCoveringConfig rest c hkey := by
            unfold firstCoveringConfig
            by_cases hcv : entryCovers e c hkey = true
            · simp [List.find?_cons, hcv]
            · have hcv' : entryCovers e c hkey = false := by simpa using hcv
              simp [List.find?_cons, hcv']
          rw [hfc]
          by_cases hcv : entryCovers e c hkey = true
          · have hsplit := hcv
            unfold entryCovers at hsplit
            rw [Bool.and_eq_true] at hsplit
            have hm1 : c ∈ e.components := by simpa using hsplit.1
            have hm2' : hkey ∈ e.hosts := by simpa using hsplit.2
            simp [hcv, hm1, hm2', optOr_some_absorb]
          · have hcv' : entryCovers e c hkey = false := by simpa using hcv
            have hnmem : ¬(c ∈ e.components ∧ hkey ∈ e.hosts) := by
              intro hc
              unfold entryCovers at hcv'
              rw [Bool.and_eq_false_iff] at hcv'
              rcases hcv' with h1 | h2
              · simp [hc.1] at h1
              · simp [hc.2] at h2
            simp [hcv', if_neg hnmem, optOr_none_right]

/-! ### Claim C7 — first entry wins in the TLS identity map -/

/-- C7: when `TlsClientConfigs::new` succeeds on a list of entries, the
config selected for a (component, host) pair covered by at least one entry is
exactly the config of the earliest covering entry — later entries never
overwrite an already-set mapping. -/
theorem c7_tls_first_entry_wins (entries : List ClientTlsRuntimeConfig)
    (m : List (String × List (String × Nat))) (c h : String)
    (e : ClientTlsRuntimeConfig) (d : Nat)
    (hok : TlsClientConfigs.new entries = .ok m)
    (hfind : entries.find? (fun en => entryCovers en c h) = some e) :
    getTlsClientConfig m d c h = e.tlsConfig := by
  have hlook := tlsNewGo_lookup hok c h
  have hbase : getComponentHostConfig ([] : List (String × List (String × Nat))) c h = none :=
    rfl
  rw [hbase] at hlook
  unfold getTlsClientConfig
  rw [hlook]
  unfold firstCoveringConfig
  rw [hfind]
  rfl

/-- C7 witness: two entries covering the same (component, host) pair; lookup
returns the first entry's config, 10, not the second's. -/
theorem c7_tls_first_entry_wins_witness :
    TlsClientConfigs.new
        [⟨["c1"], ["api.example.com"], 10⟩, ⟨["c1", "c2"], ["api.example.com"], 20⟩]
      = .ok [("c1", [("api.example.com", 10)]), ("c2", [("api.example.com", 20)])] ∧
    ([⟨["c1"], ["api.example.com"], 10⟩,
      ⟨["c1", "c2"], ["api.example.com"], 20⟩] : List ClientTlsRuntimeConfig).find?
        (fun en => entryCovers en "c1" "api.example.com")
      = some ⟨["c1"], ["api.example.com"], 10⟩ ∧
    getTlsClientConfig [("c1", [("api.example.com", 10)]), ("c2", [("api.example.com", 20)])]
        0 "c1" "api.example.com" = 10 :=
  ⟨rfl, rfl,
    c7_tls_first_entry_wins
      [⟨["c1"], ["api.example.com"], 10⟩, ⟨["c1", "c2"], ["api.example.com"], 20⟩]
      [("c1", [("api.example.com", 10)]), ("c2", [("api.example.com", 20)])]
      "c1" "api.example.com" ⟨["c1"], ["api.example.com"], 10⟩ 0 rfl rfl⟩

/-! ### Helper lemmas for IPv6-literal patterns -/

theorem getLast?_append_right {a b : List Char} (hb : b ≠ []) :
    (a ++ b).getLast? = b.getLast? := by
  induction a with
  | nil => rfl
  | cons x xs ih =>
    rw [List.cons_append]
    have hne : xs ++ b ≠ [] := by simp [hb]
    obtain ⟨y, ys, hys⟩ := List.exists_cons_of_ne_nil hne
    rw [hys, List.getLast?_cons_cons, ← hys, ih]

theorem v6PatternChar_not_ws {c : Char} (h : v6PatternChar c = true) : wsChar c = false := by
  by_contra hw
  rw [Bool.not_eq_false] at hw
  simp only [wsChar, Bool.or_eq_true, beq_iff_eq] at hw
  rcases hw with ((h1 | h1) | h1) | h1 <;> subst h1 <;> exact absurd h (by decide)

theorem v6PatternChar_ne {c : Char} (h : v6PatternChar c = true) :
    c ≠ '/' ∧ c ≠ chrLBrace := by
  constructor <;> intro he <;> subst he <;> exact absurd h (by decide)

theorem individualPortParse_rbracket {l : List Char} (h : l.getLast? = some ']') :
    ∃ e, IndividualPortConfig.parse l = .error e := by
  unfold IndividualPortConfig.parse
  cases hsp : splitOnceChars l ['.', '.'] with
  | none =>
    have hmem := mem_of_getLast?_eq h
    have hnone : parseNatDigits l = none := parseNatDigits_none_of_mem hmem (by decide)
    exact ⟨"port is not a number", by simp [parseU16, hnone]⟩
  | some p =>
    obtain ⟨s, e2⟩ := p
    have hl : l = s ++ ['.', '.'] ++ e2 := splitOnceChars_eq_append hsp
    have he2 : e2.getLast? = some ']' := by
      cases e2 with
      | nil =>
        rw [hl, List.append_nil] at h
        rw [@getLast?_append_right s ['.', '.'] (by simp)] at h
        exact absurd h (by decide)
      | cons x xs =>
        rw [hl, @getLast?_append_right (s ++ ['.', '.']) (x :: xs) (by simp)] at h
        exact h
    have hmem := mem_of_getLast?_eq he2
    have hnone : parseU16 e2 = none := by
      simp [parseU16, parseNatDigits_none_of_mem hmem (by decide)]
    cases hps : parseU16 s with
    | none => exact ⟨"port range contains non-number", by simp [hps]⟩
    | some sv => exact ⟨"port range contains non-number", by simp [hps, hnone]⟩

theorem portConfigParse_rbracket {l scheme : List Char}
    (hlast : l.getLast? = some ']') (hhead : (l.head? == some chrLBrace) = false)
    (hstar : (l == ['*']) = false) :
    ∃ e, PortConfig.parse l scheme = .error e := by
  have hne : l.isEmpty = false := by
    cases l with
    | nil => simp at hlast
    | cons x xs => rfl
  obtain ⟨e, he⟩ := individualPortParse_rbracket hlast
  exact ⟨e, by simp [PortConfig.parse, hne, hstar, hhead, he]⟩

/-! ### Claim C10 — bracketed IPv6 pattern hosts require an explicit port -/

/-- C10: because the pattern parser splits host from port at the last colon
of the authority, a bracketed IPv6 pattern without a port component fails to
parse for any IPv6 body text (the piece after the last colon ends in the
closing bracket, which cannot be a port), even though `http` has a well-known
default port; with a port (number, wildcard, or range) after the bracket,
such patterns parse. -/
theorem c10_ipv6_literal_requires_port :
    (∀ inner : String, (∀ c ∈ inner.data, v6PatternChar c = true) → ':' ∈ inner.data →
      ∃ e, AllowedHostConfig.parse ("http://[" ++ inner ++ "]") = .error e) ∧
    AllowedHostConfig.parse "http://[::1]:8001"
      = .ok ⟨"http://[::1]:8001", .list ["http"], .literal (.ipv6 1), .list [.port 8001]⟩ ∧
    AllowedHostConfig.parse "http://[::1]:*"
      = .ok ⟨"http://[::1]:*", .list ["http"], .literal (.ipv6 1), .any⟩ ∧
    AllowedHostConfig.parse "http://[::1]:8000..9000"
      = .ok ⟨"http://[::1]:8000..9000", .list ["http"], .literal (.ipv6 1),
          .list [.range 8000 9000]⟩ := by
  refine ⟨?_, rfl, rfl, rfl⟩
  intro inner hchars hcolon
  obtain ⟨i1, i2, hinner, hni2⟩ := exists_last_split hcolon
  have hsubchars : ∀ c ∈ i2, v6PatternChar c = true := by
    intro c hc
    apply hchars
    rw [hinner]
    exact List.mem_append_right _ (List.mem_cons_of_mem _ hc)
  have hdata : ("http://[" ++ inner ++ "]").data
      = 'h' :: 't' :: 't' :: 'p' :: ':' :: '/' :: '/' :: '[' :: (inner.data ++ [']']) := by
    rw [show ("http://[" ++ inner ++ "]").data
        = "http://[".data ++ inner.data ++ "]".data by simp [String.data_append]]
    simp
  have hnws : ∀ c ∈ 'h' :: 't' :: 't' :: 'p' :: ':' :: '/' :: '/' :: '['
      :: (inner.data ++ [']']), wsChar c = false := by
    intro c hc
    simp only [List.mem_cons, List.mem_append] at hc
    rcases hc with h1 | h1 | h1 | h1 | h1 | h1 | h1 | h1 | h1 | h1 | h1
    · subst h1; decide
    · subst h1; decide
    · subst h1; decide
    · subst h1; decide
    · subst h1; decide
    · subst h1; decide
    · subst h1; decide
    · subst h1; decide
    · exact v6PatternChar_not_ws (hchars c h1)
    · subst h1; decide
    · exact absurd h1 (List.not_mem_nil c)
  have htrim := trimChars_eq_self hnws
  have hsep : ("://".data : List Char) = ':' :: ['/', '/'] := rfl
  have hsplit : splitOnceChars
      (['h', 't', 't', 'p'] ++ (':' :: (['/', '/'] ++ ('[' :: (inner.data ++ [']'])))))
      (':' :: ['/', '/'])
      = some (['h', 't', 't', 'p'], '[' :: (inner.data ++ [']'])) :=
    @splitOnceChars_append ['h', 't', 't', 'p'] ':' ['/', '/'] ('[' :: (inner.data ++ [']']))
      (by decide)
  have hform : '[' :: (inner.data ++ [']']) = ('[' :: i1) ++ ':' :: (i2 ++ [']']) := by
    rw [hinner]
    simp
  have hrsplit : rsplitOnceChar ('[' :: (inner.data ++ [']'])) ':'
      = some ('[' :: i1, i2 ++ [']']) := by
    rw [hform]
    apply rsplitOnceChar_append
    intro hmem
    rcases List.mem_append.mp hmem with hA | hB
    · exact hni2 hA
    · rw [List.mem_singleton] at hB
      exact absurd hB (by decide)
  have hslashnone : splitOnceChar (i2 ++ [']']) '/' = none := by
    apply splitOnceChar_none
    intro hmem
    rcases List.mem_append.mp hmem with hA | hB
    · exact absurd (hsubchars _ hA) (by decide)
    · rw [List.mem_singleton] at hB
      exact absurd hB (by decide)
  have hlast : (i2 ++ [']']).getLast? = some ']' := List.getLast?_concat _
  have hstar : ((i2 ++ [']']) == ['*']) = false := by
    rw [beq_eq_false_iff_ne]
    intro heq
    have hlast2 := hlast
    rw [heq] at hlast2
    exact absurd hlast2 (by decide)
  have hhead : ((i2 ++ [']']).head? == some chrLBrace) = false := by
    cases i2 with
    | nil => decide
    | cons x xs =>
      have hx : v6PatternChar x = true := hsubchars x (by simp)
      have hne : x ≠ chrLBrace := (v6PatternChar_ne hx).2
      simpa using hne
  obtain ⟨e, he⟩ := @portConfigParse_rbracket (i2 ++ [']']) ['h', 't', 't', 'p']
    hlast hhead hstar
  refine ⟨"invalid allowed host port: " ++ e, ?_⟩
  simp only [AllowedHostConfig.parse, hdata, htrim, hsep]
  rw [show ('h' :: 't' :: 't' :: 'p' :: ':' :: '/' :: '/' :: '[' :: (inner.data ++ [']']))
      = ['h', 't', 't', 'p'] ++ (':' :: (['/', '/'] ++ ('[' :: (inner.data ++ [']'])))) by simp]
  rw [hsplit]
  simp only [hrsplit, AllowedHostConfig.parseTail, hslashnone, AllowedHostConfig.parsePieces,
    he]

/-- C10 witness: the general clause applied to the loopback literal text
`::1`: the pattern `http://[::1]` is rejected. -/
theorem c10_ipv6_literal_requires_port_witness :
    (∀ c ∈ "::1".data, v6PatternChar c = true) ∧ (':' ∈ "::1".data) ∧
    (∃ e, AllowedHostConfig.parse "http://[::1]" = .error e) :=
  ⟨by decide, by decide, c10_ipv6_literal_requires_port.1 "::1" (by decide) (by decide)⟩

/-! ### Helper lemmas for the round-trip development (claim C3) -/

